import Mathlib

/-!
Verification of the match-3 board engine and battle loop of this repository
(`src/board.rs`, `src/battle.rs`) against its natural-language specification.

The board is a 6x5 grid of tiles; each tile references a gem carrying an
`Element`.  The systems embedded here are the ones the claims are about:

* `begin_fall` (the Fall/Cascade Resolver, board.rs:539-591) — modelled
  per column as `begin_fall_column` over a `List (Option γ)` (bottom-to-top
  tile slots; `none` is a tile whose gem was destroyed, `some g` a tile
  holding gem `g`);
* `match_gems` (the Match Detector, board.rs:380-457) — run scanning plus
  the overlap-merge loop, including the `Vec::remove` / `Vec::insert`
  index bookkeeping of the source (Rust `Vec::insert` panics when the
  index exceeds the length, which the embedding surfaces as
  `MergeOut.panicked`);
* the Swapping-phase systems `pickup_gem` / `update_timer` / `swap_gems` /
  `drop_gem` / `return_gems` (board.rs:231-348);
* `stop_matching` (board.rs:495-525);
* `player_attack` / `enemies_attack` (battle.rs:454-489, 563-578).

Version note: `src/battle.rs` imports `BoardState::{None, Ready, End}` and
`Element::Heal` from the board module, but the `src/board.rs` present in the
tree is an earlier revision whose state enum is
`Waiting/Swapping/Matching/Falling` and whose `Element` enum has no `Heal`
variant.  The board-module revision matching `battle.rs` is therefore not in
`src/`; where a claim depends on it (the `Ready`/`End` state names, the
`Heal` element) the missing part is modelled from the spec and marked
`Modelled from the spec:` on the definition.
-/

/-- Rust `Element` from src/board.rs (the board revision in src/): the six gem
elements, in declaration order (which is the `strum` iteration order used by
`Element::random`). -/
inductive Element where
  | life
  | death
  | water
  | fire
  | nature
  | electric
deriving DecidableEq, Fintype

/-- Rust `Element::random` (board.rs:673-678) draws `n` uniformly from
`0..Element::COUNT` (= 6) and returns `Element::iter().nth(n)`.  The RNG is
external; its contract is a uniform draw over `Fin 6`.  This function is the
deterministic index-to-variant map `Self::iter().nth(n)`. -/
def Element.fromIndex : Fin 6 → Element
  | 0 => .life
  | 1 => .death
  | 2 => .water
  | 3 => .fire
  | 4 => .nature
  | 5 => .electric

/-- Rust `FallingGem` (board.rs:533-537): a fall assignment either reuses an
existing gem or spawns a new one at synthetic `height`. -/
inductive FallingGem (γ : Type) where
  | existing : γ → FallingGem γ
  | new : Nat → FallingGem γ
deriving DecidableEq

/-- Rust `Fall` event (board.rs:527-531): `tile` is the index of the tile (within
its column, bottom-to-top) receiving the gem. -/
structure Fall (γ : Type) where
  tile : Nat
  gem : FallingGem γ
deriving DecidableEq

/-- The `free_gems` iterator of `begin_fall` (board.rs:561-576) specialised
to its first result (`free_gems.next()`): scan the tiles above the current
one; a `none` slot is skipped (`gem.is_none()`, filtered out); a `some` slot
is skipped while the stolen-counter copy is positive (decrementing it),
and otherwise is the first free gem. -/
def first_free_gem {γ : Type} : List (Option γ) → Nat → Option γ
  | [], _ => none
  | none :: rest, ns => first_free_gem rest ns
  | some g :: _, 0 => some g
  | some _ :: rest, ns + 1 => first_free_gem rest ns

/-- The per-column loop body of `begin_fall` (board.rs:547-589).  Arguments
mirror the Rust locals: the remaining column slots (bottom-to-top), the
current tile index `y`, `num_stolen` and `height`.

For a slot `some _` with `num_stolen = ns + 1`: `missing = false`,
`stolen = true`, so `num_stolen` is decremented to `ns` and an event fires;
with `num_stolen = 0` no event fires.  For a slot `none`: `missing = true`,
no decrement (`!missing` fails), an event fires.  On an `Existing`
assignment `num_stolen` is re-incremented; on a `New` assignment `height`
is incremented first and emitted (`FallingGem::New { height }`). -/
def begin_fall_aux {γ : Type} : List (Option γ) → Nat → Nat → Nat → List (Fall γ)
  | [], _, _, _ => []
  | some _ :: rest, y, 0, h => begin_fall_aux rest (y + 1) 0 h
  | some _ :: rest, y, ns + 1, h =>
    match first_free_gem rest ns with
    | some g => ⟨y, .existing g⟩ :: begin_fall_aux rest (y + 1) (ns + 1) h
    | none => ⟨y, .new (h + 1)⟩ :: begin_fall_aux rest (y + 1) ns (h + 1)
  | none :: rest, y, ns, h =>
    match first_free_gem rest ns with
    | some g => ⟨y, .existing g⟩ :: begin_fall_aux rest (y + 1) (ns + 1) h
    | none => ⟨y, .new (h + 1)⟩ :: begin_fall_aux rest (y + 1) ns (h + 1)

/-- Rust `begin_fall` restricted to one column (board.rs:547-589): the loop starts
with `height = 0` and `num_stolen = 0` at the bottom tile. -/
def begin_fall_column {γ : Type} (column : List (Option γ)) : List (Fall γ) :=
  begin_fall_aux column 0 0 0

/-- The gems of the `Existing` fall assignments, in event order. -/
def existing_gems {γ : Type} (events : List (Fall γ)) : List γ :=
  events.filterMap fun ev =>
    match ev.gem with
    | .existing g => some g
    | .new _ => none

/-- The heights of the `New` fall assignments, in event order. -/
def new_heights {γ : Type} (events : List (Fall γ)) : List Nat :=
  events.filterMap fun ev =>
    match ev.gem with
    | .existing _ => none
    | .new h => some h

/-- Number of gems present in a column. -/
def count_some {γ : Type} (column : List (Option γ)) : Nat :=
  (column.filterMap id).length

/-- Number of vacated (missing-gem) slots in a column. -/
def count_none {γ : Type} (column : List (Option γ)) : Nat :=
  (column.filter fun o => o.isNone).length

theorem count_some_add_count_none {γ : Type} (column : List (Option γ)) :
    count_some column + count_none column = column.length := by
  induction column with
  | nil => rfl
  | cons a rest ih =>
    cases a <;> simp [count_some, count_none, List.filterMap_cons, List.filter_cons] at ih ⊢ <;>
      omega

theorem count_some_le_length {γ : Type} (column : List (Option γ)) :
    count_some column ≤ column.length := by
  have h := count_some_add_count_none column
  omega

/-- Evaluating `first_free_gem l ns` yields the `ns`-th present gem of `l`. -/
theorem first_free_gem_eq_get? {γ : Type} (l : List (Option γ)) (ns : Nat) :
    first_free_gem l ns = (l.filterMap id).get? ns := by
  induction l generalizing ns with
  | nil => cases ns <;> rfl
  | cons a rest ih =>
    cases a with
    | none => simpa [first_free_gem, List.filterMap_cons] using ih ns
    | some g => cases ns <;> simp [first_free_gem, List.filterMap_cons, List.get?, ih]

theorem existing_gems_cons_existing {γ : Type} (y : Nat) (g : γ) (evs : List (Fall γ)) :
    existing_gems (⟨y, .existing g⟩ :: evs) = g :: existing_gems evs := rfl

theorem existing_gems_cons_new {γ : Type} (y h : Nat) (evs : List (Fall γ)) :
    existing_gems (⟨y, .new h⟩ :: evs) = existing_gems evs := rfl

theorem new_heights_cons_existing {γ : Type} (y : Nat) (g : γ) (evs : List (Fall γ)) :
    new_heights (⟨y, .existing g⟩ :: evs) = new_heights evs := rfl

theorem new_heights_cons_new {γ : Type} (y h : Nat) (evs : List (Fall γ)) :
    new_heights (⟨y, .new h⟩ :: evs) = h :: new_heights evs := rfl

theorem count_some_cons_some {γ : Type} (g : γ) (rest : List (Option γ)) :
    count_some (some g :: rest) = count_some rest + 1 := by
  simp [count_some, List.filterMap_cons]

theorem count_some_cons_none {γ : Type} (rest : List (Option γ)) :
    count_some (none :: rest) = count_some rest := by
  simp [count_some, List.filterMap_cons]

theorem first_free_gem_some_lt {γ : Type} {rest : List (Option γ)} {ns : Nat} {g : γ}
    (hfg : first_free_gem rest ns = some g) : ns < count_some rest := by
  by_contra hge
  rw [first_free_gem_eq_get?, List.get?_eq_none.mpr (by simpa [count_some] using hge)] at hfg
  exact Option.noConfusion hfg

theorem first_free_gem_none_le {γ : Type} {rest : List (Option γ)} {ns : Nat}
    (hfg : first_free_gem rest ns = none) : count_some rest ≤ ns := by
  rw [first_free_gem_eq_get?] at hfg
  exact List.get?_eq_none.mp hfg

/-- Skipping an initial run of filled tiles: with `num_stolen = 0`, a tile
whose gem is present fires no event and changes no counter. -/
theorem begin_fall_aux_skip_filled {γ : Type} :
    ∀ (pre : List (Option γ)), (∀ x ∈ pre, x.isSome) →
      ∀ (rest : List (Option γ)) (y h : Nat),
        begin_fall_aux (pre ++ rest) y 0 h = begin_fall_aux rest (y + pre.length) 0 h := by
  intro pre
  induction pre with
  | nil => intro _ rest y h; simp
  | cons a pre ih =>
    intro hall rest y h
    have ha : a.isSome := hall a (by simp)
    obtain ⟨g, rfl⟩ := Option.isSome_iff_exists.mp ha
    have h1 : begin_fall_aux (some g :: (pre ++ rest)) y 0 h
        = begin_fall_aux (pre ++ rest) (y + 1) 0 h := rfl
    rw [List.cons_append, h1, ih (fun x hx => hall x (by simp [hx])) rest (y + 1) h]
    congr 1
    simp only [List.length_cons]
    omega

/-- Core counting invariant of the `begin_fall` column loop.  Once the loop
has passed the lowest vacated tile, every remaining tile fires exactly one
event (its gem is missing, or will be stolen by a lower tile); the `Existing`
events claim exactly the gems not yet spoken for, and the rest are `New`.
The second hypothesis states that the loop is at or past the lowest vacated
tile: either some lower tile has already claimed a gem (`0 < ns`), or no
gems remain, or the current slot itself is vacated. -/
theorem begin_fall_aux_counts {γ : Type} :
    ∀ (l : List (Option γ)) (ns y h : Nat),
      ns ≤ count_some l →
      (0 < ns ∨ count_some l = 0 ∨ l.head? = some none) →
      (begin_fall_aux l y ns h).length = l.length ∧
      (existing_gems (begin_fall_aux l y ns h)).length = count_some l - ns ∧
      (new_heights (begin_fall_aux l y ns h)).length = l.length - (count_some l - ns) := by
  intro l
  induction l with
  | nil =>
    intro ns y h h1 _
    simp [count_some] at h1
    simp [begin_fall_aux, existing_gems, new_heights, count_some, h1]
  | cons a rest ih =>
    intro ns y h h1 h2
    have hcsr : count_some rest ≤ rest.length := count_some_le_length rest
    cases a with
    | some g =>
      rw [count_some_cons_some] at h1 ⊢
      have hns : 0 < ns := by
        rcases h2 with h2 | h2 | h2
        · exact h2
        · rw [count_some_cons_some] at h2; omega
        · simp at h2
      obtain ⟨ns', rfl⟩ : ∃ ns', ns = ns' + 1 := ⟨ns - 1, by omega⟩
      cases hfg : first_free_gem rest ns' with
      | some g' =>
        have hlt : ns' < count_some rest := first_free_gem_some_lt hfg
        obtain ⟨e1, e2, e3⟩ := ih (ns' + 1) (y + 1) h (by omega) (Or.inl (by omega))
        rw [show begin_fall_aux (some g :: rest) y (ns' + 1) h
            = ⟨y, .existing g'⟩ :: begin_fall_aux rest (y + 1) (ns' + 1) h by
          simp [begin_fall_aux, hfg]]
        simp only [existing_gems_cons_existing, new_heights_cons_existing, List.length_cons]
        omega
      | none =>
        have hge : count_some rest ≤ ns' := first_free_gem_none_le hfg
        obtain ⟨e1, e2, e3⟩ := ih ns' (y + 1) (h + 1) (by omega)
          ((show 0 < ns' ∨ count_some rest = 0 by omega).imp id Or.inl)
        rw [show begin_fall_aux (some g :: rest) y (ns' + 1) h
            = ⟨y, .new (h + 1)⟩ :: begin_fall_aux rest (y + 1) ns' (h + 1) by
          simp [begin_fall_aux, hfg]]
        simp only [existing_gems_cons_new, new_heights_cons_new, List.length_cons]
        omega
    | none =>
      rw [count_some_cons_none] at h1 ⊢
      cases hfg : first_free_gem rest ns with
      | some g' =>
        have hlt : ns < count_some rest := first_free_gem_some_lt hfg
        obtain ⟨e1, e2, e3⟩ := ih (ns + 1) (y + 1) h (by omega) (Or.inl (by omega))
        rw [show begin_fall_aux (none :: rest) y ns h
            = ⟨y, .existing g'⟩ :: begin_fall_aux rest (y + 1) (ns + 1) h by
          simp [begin_fall_aux, hfg]]
        simp only [existing_gems_cons_existing, new_heights_cons_existing, List.length_cons]
        omega
      | none =>
        have hge : count_some rest ≤ ns := first_free_gem_none_le hfg
        obtain ⟨e1, e2, e3⟩ := ih ns (y + 1) (h + 1) (by omega)
          ((show 0 < ns ∨ count_some rest = 0 by omega).imp id Or.inl)
        rw [show begin_fall_aux (none :: rest) y ns h
            = ⟨y, .new (h + 1)⟩ :: begin_fall_aux rest (y + 1) ns (h + 1) by
          simp [begin_fall_aux, hfg]]
        simp only [existing_gems_cons_new, new_heights_cons_new, List.length_cons]
        omega

/-- The gems claimed by `Existing` fall assignments form a sublist of the
gems present in the column beyond the already-claimed prefix: in particular
no gem is claimed twice and every claimed gem comes from the column. -/
theorem existing_gems_sublist {γ : Type} :
    ∀ (l : List (Option γ)) (y ns h : Nat),
      List.Sublist (existing_gems (begin_fall_aux l y ns h)) ((l.filterMap id).drop ns) := by
  intro l
  induction l with
  | nil => intro y ns h; simp [begin_fall_aux, existing_gems]
  | cons a rest ih =>
    intro y ns h
    cases a with
    | some g =>
      cases ns with
      | zero =>
        have h1 : begin_fall_aux (some g :: rest) y 0 h
            = begin_fall_aux rest (y + 1) 0 h := rfl
        rw [h1]
        simpa [List.filterMap_cons] using (ih (y + 1) 0 h).cons g
      | succ ns' =>
        have htarget : ((some g :: rest).filterMap id).drop (ns' + 1)
            = (rest.filterMap id).drop ns' := by
          simp [List.filterMap_cons]
        cases hfg : first_free_gem rest ns' with
        | some g' =>
          have hget : (rest.filterMap id).get? ns' = some g' := by
            rw [← first_free_gem_eq_get?, hfg]
          rcases List.get?_eq_some.mp hget with ⟨hlen, hval⟩
          have hdrop : (rest.filterMap id).drop ns'
              = g' :: (rest.filterMap id).drop (ns' + 1) := by
            rw [List.drop_eq_getElem_cons hlen]
            simp [List.get_eq_getElem] at hval
            rw [hval]
          rw [show begin_fall_aux (some g :: rest) y (ns' + 1) h
              = ⟨y, .existing g'⟩ :: begin_fall_aux rest (y + 1) (ns' + 1) h by
            simp [begin_fall_aux, hfg]]
          rw [existing_gems_cons_existing, htarget, hdrop]
          exact (ih (y + 1) (ns' + 1) h).cons₂ g'
        | none =>
          rw [show begin_fall_aux (some g :: rest) y (ns' + 1) h
              = ⟨y, .new (h + 1)⟩ :: begin_fall_aux rest (y + 1) ns' (h + 1) by
            simp [begin_fall_aux, hfg]]
          rw [existing_gems_cons_new, htarget]
          exact ih (y + 1) ns' (h + 1)
    | none =>
      have htarget : ((none : Option γ) :: rest).filterMap id = rest.filterMap id := by
        simp [List.filterMap_cons]
      cases hfg : first_free_gem rest ns with
      | some g' =>
        have hget : (rest.filterMap id).get? ns = some g' := by
          rw [← first_free_gem_eq_get?, hfg]
        rcases List.get?_eq_some.mp hget with ⟨hlen, hval⟩
        have hdrop : (rest.filterMap id).drop ns
            = g' :: (rest.filterMap id).drop (ns + 1) := by
          rw [List.drop_eq_getElem_cons hlen]
          simp [List.get_eq_getElem] at hval
          rw [hval]
        rw [show begin_fall_aux (none :: rest) y ns h
            = ⟨y, .existing g'⟩ :: begin_fall_aux rest (y + 1) (ns + 1) h by
          simp [begin_fall_aux, hfg]]
        rw [existing_gems_cons_existing, htarget, hdrop]
        exact (ih (y + 1) (ns + 1) h).cons₂ g'
      | none =>
        rw [show begin_fall_aux (none :: rest) y ns h
            = ⟨y, .new (h + 1)⟩ :: begin_fall_aux rest (y + 1) ns (h + 1) by
          simp [begin_fall_aux, hfg]]
        rw [existing_gems_cons_new, htarget]
        exact ih (y + 1) ns (h + 1)

/-- The suffix of a column from its lowest vacated tile either is empty or
begins with the vacated tile itself. -/
theorem dropWhile_isSome_shape {γ : Type} (c : List (Option γ)) :
    c.dropWhile Option.isSome = [] ∨ (c.dropWhile Option.isSome).head? = some none := by
  induction c with
  | nil => exact Or.inl rfl
  | cons a rest ih =>
    cases a with
    | some g => simpa [List.dropWhile] using ih
    | none => exact Or.inr (by simp [List.dropWhile])

/-- A column used to refute the literal count formula of the spec's
"Fall conservation" property: one vacated tile below two surviving gems. -/
def fallCexColumn : List (Option Nat) := [none, some 0, some 1]

/-- A small column with one vacated tile and one gem above it. -/
def fallWitnessColumn : List (Option Nat) := [none, some 0]

/-- Claim C1 (counterexample): on the column `[vacated, gem, gem]` the Fall
Resolver produces 3 fall assignments, not `k = 1` (the number of vacated
tiles), and 1 of them is "new", not `max(0, k - m) = max(0, 1 - 2) = 0`
(where `m = 2` is the number of remaining gems in the column).  Both
equalities claimed by the spec fail on this input. -/
theorem c1_counterexample :
    count_none fallCexColumn = 1 ∧
    count_some fallCexColumn = 2 ∧
    (begin_fall_column fallCexColumn).length = 3 ∧
    (new_heights (begin_fall_column fallCexColumn)).length = 1 ∧
    ¬ ((begin_fall_column fallCexColumn).length = count_none fallCexColumn ∧
       (new_heights (begin_fall_column fallCexColumn)).length
         = max (count_none fallCexColumn - count_some fallCexColumn) 0) := by
  decide

/-- Claim C1 (amended): running the Fall Resolver once on a column produces
one fall assignment per tile from the lowest vacated tile upward (every such
tile is either missing its gem or has it claimed away by a lower tile); the
number of "new" (spawned) assignments equals the number of vacated tiles
`k = count_none c`; the other assignments, one per gem lying at or above the
lowest vacated tile, reuse existing gems from the same column. -/
theorem c1_begin_fall_assignment_counts {γ : Type} (c : List (Option γ)) :
    (begin_fall_column c).length = (c.dropWhile Option.isSome).length ∧
    (new_heights (begin_fall_column c)).length = count_none c ∧
    (existing_gems (begin_fall_column c)).length = count_some (c.dropWhile Option.isSome) ∧
    ∀ g ∈ existing_gems (begin_fall_column c), some g ∈ c := by
  have hsplit := (List.takeWhile_append_dropWhile Option.isSome c).symm
  have hall : ∀ x ∈ c.takeWhile Option.isSome, x.isSome := fun x hx =>
    List.mem_takeWhile_imp hx
  have heq : begin_fall_column c
      = begin_fall_aux (c.dropWhile Option.isSome)
          (0 + (c.takeWhile Option.isSome).length) 0 0 := by
    show begin_fall_aux c 0 0 0 = _
    conv_lhs => rw [hsplit]
    exact begin_fall_aux_skip_filled _ hall _ 0 0
  have hct : count_none (c.takeWhile Option.isSome) = 0 := by
    rw [count_none, List.length_eq_zero, List.filter_eq_nil_iff]
    intro x hx
    have h2 := hall x hx
    cases x
    · simp at h2
    · simp
  have hcn : count_none c = count_none (c.dropWhile Option.isSome) := by
    conv_lhs => rw [hsplit]
    simp only [count_none, List.filter_append, List.length_append] at hct ⊢
    omega
  have hmem : ∀ g ∈ existing_gems (begin_fall_column c), some g ∈ c := by
    intro g hgmem
    have hsub := existing_gems_sublist c 0 0 0
    rw [List.drop_zero] at hsub
    have : g ∈ c.filterMap id := hsub.subset hgmem
    simpa [List.mem_filterMap] using this
  rcases dropWhile_isSome_shape c with hnil | hhead
  · rw [heq, hnil]
    refine ⟨rfl, ?_, rfl, ?_⟩
    · rw [hcn, hnil]
      rfl
    · intro g hg
      simp [begin_fall_aux, existing_gems] at hg
  · obtain ⟨e1, e2, e3⟩ := begin_fall_aux_counts (c.dropWhile Option.isSome) 0
      (0 + (c.takeWhile Option.isSome).length) 0 (Nat.zero_le _) (Or.inr (Or.inr hhead))
    have hsum := count_some_add_count_none (c.dropWhile Option.isSome)
    refine ⟨by rw [heq]; exact e1, by rw [heq]; omega, by rw [heq]; omega, hmem⟩

/-- Claim C1 (witness): a concrete instance of the amended count theorem,
including its membership hypothesis discharged at gem `0`. -/
theorem c1_witness :
    (begin_fall_column fallWitnessColumn).length
      = (fallWitnessColumn.dropWhile Option.isSome).length ∧
    some 0 ∈ fallWitnessColumn :=
  ⟨(c1_begin_fall_assignment_counts fallWitnessColumn).1,
   (c1_begin_fall_assignment_counts fallWitnessColumn).2.2.2 0 (by decide)⟩

/-- The heights of the `New` assignments of a column run are consecutive,
starting one above the incoming `height` counter: the source increments
`height` before emitting each `FallingGem::New { height }`. -/
theorem new_heights_range_aux {γ : Type} :
    ∀ (l : List (Option γ)) (y ns h : Nat),
      new_heights (begin_fall_aux l y ns h)
        = List.range' (h + 1) (new_heights (begin_fall_aux l y ns h)).length := by
  intro l
  induction l with
  | nil => intro y ns h; simp [begin_fall_aux, new_heights]
  | cons a rest ih =>
    intro y ns h
    cases a with
    | some g =>
      cases ns with
      | zero =>
        rw [show begin_fall_aux (some g :: rest) y 0 h
            = begin_fall_aux rest (y + 1) 0 h from rfl]
        exact ih (y + 1) 0 h
      | succ ns' =>
        cases hfg : first_free_gem rest ns' with
        | some g' =>
          rw [show begin_fall_aux (some g :: rest) y (ns' + 1) h
              = ⟨y, .existing g'⟩ :: begin_fall_aux rest (y + 1) (ns' + 1) h by
            simp [begin_fall_aux, hfg]]
          rw [new_heights_cons_existing]
          exact ih (y + 1) (ns' + 1) h
        | none =>
          rw [show begin_fall_aux (some g :: rest) y (ns' + 1) h
              = ⟨y, .new (h + 1)⟩ :: begin_fall_aux rest (y + 1) ns' (h + 1) by
            simp [begin_fall_aux, hfg]]
          rw [new_heights_cons_new, List.length_cons, List.range'_succ]
          congr 1
          exact ih (y + 1) ns' (h + 1)
    | none =>
      cases hfg : first_free_gem rest ns with
      | some g' =>
        rw [show begin_fall_aux (none :: rest) y ns h
            = ⟨y, .existing g'⟩ :: begin_fall_aux rest (y + 1) (ns + 1) h by
          simp [begin_fall_aux, hfg]]
        rw [new_heights_cons_existing]
        exact ih (y + 1) (ns + 1) h
      | none =>
        rw [show begin_fall_aux (none :: rest) y ns h
            = ⟨y, .new (h + 1)⟩ :: begin_fall_aux rest (y + 1) ns (h + 1) by
          simp [begin_fall_aux, hfg]]
        rw [new_heights_cons_new, List.length_cons, List.range'_succ]
        congr 1
        exact ih (y + 1) ns (h + 1)

/-- Rust `BOARD_MIDDLE` (board.rs:785): `Vec3::new(6.0 / 2.0, 5.0 / 2.0, 0.0)`;
this is its y component. -/
def board_middle_y : ℚ := 5 / 2

/-- Start y coordinate of a newly spawned falling gem
(board.rs:605-609): `BOARD_MIDDLE.y - 0.5 + height as f32`. -/
def new_gem_start_y (height : Nat) : ℚ := board_middle_y - 1 / 2 + height

/-- y coordinate of the topmost row's tiles (board.rs:796-798): tiles sit at
`offset - middle` with `offset.y = y as f32 + 0.5`; the topmost row has
`y = 4`. -/
def top_row_y : ℚ := (4 + 1 / 2) - board_middle_y

/-- Claim C9: a `New` fall assignment spawns a gem whose Element is drawn by
`Element::random` as `iter().nth(n)` for `n` uniform on `0..6` — each of the
six variants has exactly one preimage index, hence probability 1/6 under the
(external) RNG's uniform contract; within one column the `New` assignments
carry heights 1, 2, 3, ... in order, so the i-th new gem spawned in the
column starts at `BOARD_MIDDLE.y - 0.5 + i`, which is exactly i units above
the topmost row's y coordinate. -/
theorem c9_new_gem_spawn :
    (∀ e : Element,
      ((List.finRange 6).filter fun i => Element.fromIndex i = e).length = 1) ∧
    (∀ c : List (Option Nat),
      new_heights (begin_fall_column c)
        = List.range' 1 (new_heights (begin_fall_column c)).length) ∧
    (∀ h : Nat, new_gem_start_y h = top_row_y + h) := by
  refine ⟨by decide, fun c => new_heights_range_aux c 0 0 0, fun h => ?_⟩
  simp [new_gem_start_y, top_row_y, board_middle_y]
  ring

/-- Per-column claimed gems, concatenated over the grid, form a sublist of
the per-column present gems concatenated over the grid. -/
theorem existing_flatten_sublist {γ : Type} (grid : List (List (Option γ))) :
    List.Sublist ((grid.map fun c => existing_gems (begin_fall_column c)).flatten)
      ((grid.map (List.filterMap id)).flatten) := by
  induction grid with
  | nil => simp
  | cons c g ih =>
    simp only [List.map_cons, List.flatten_cons]
    refine List.Sublist.append ?_ ih
    have hcol := existing_gems_sublist c 0 0 0
    rwa [List.drop_zero] at hcol

/-- Claim C7: if all gems present on the grid are pairwise distinct (they are
distinct entities in the source), then across all `Existing` fall assignments
produced by one `begin_fall` pass (each column processed independently), no
gem is claimed twice: the claimed gems are pairwise distinct. -/
theorem c7_existing_gems_nodup {γ : Type} (grid : List (List (Option γ)))
    (hg : ((grid.flatten).filterMap id).Nodup) :
    ((grid.map fun c => existing_gems (begin_fall_column c)).flatten).Nodup := by
  have heq : (grid.map (List.filterMap id)).flatten = (grid.flatten).filterMap id := by
    simp [List.filterMap_flatten]
  exact hg.sublist (heq ▸ existing_flatten_sublist grid)

/-- A small two-column grid with distinct gems. -/
def stealWitnessGrid : List (List (Option Nat)) := [[none, some 0, some 1], [some 2, none]]

/-- Claim C7 (witness): the distinctness hypothesis holds on a concrete grid
and the theorem yields distinct claimed gems there. -/
theorem c7_witness :
    ((stealWitnessGrid.flatten).filterMap id).Nodup ∧
    ((stealWitnessGrid.map fun c => existing_gems (begin_fall_column c)).flatten).Nodup :=
  ⟨by decide, c7_existing_gems_nodup stealWitnessGrid (by decide)⟩

/-- Rust `TileInfo` (board.rs:374-378): tile coordinates (x, y) paired with the
element of the gem the tile holds. -/
structure TileInfo where
  tile : Nat × Nat
  element : Element
deriving DecidableEq

/-- Rust `Match` (board.rs:368-372): a set of tile coordinates sharing one
element.  The Rust `HashSet<Entity>` is modelled as a `Finset` of
coordinates. -/
structure Match where
  tiles : Finset (Nat × Nat)
  element : Element
deriving DecidableEq

/-- The run-collapsing scan over one row or column (board.rs:408-437),
carrying the Rust `current_match` accumulator: equal elements are inserted
into the current match; on an element change the current match is emitted if
it has at least 3 tiles and a fresh one is started; the final accumulator is
emitted under the same condition. -/
def scan_line_aux (cur : Match) : List TileInfo → List Match
  | [] => if 3 ≤ cur.tiles.card then [cur] else []
  | info :: rest =>
    if cur.element = info.element then
      scan_line_aux { cur with tiles := insert info.tile cur.tiles } rest
    else
      (if 3 ≤ cur.tiles.card then [cur] else [])
        ++ scan_line_aux ⟨{info.tile}, info.element⟩ rest

/-- Scan of a whole line, seeded with its first tile (board.rs:409-414; the
source `unwrap`s the first element, and every board line is nonempty). -/
def scan_line : List TileInfo → List Match
  | [] => []
  | first :: rest => scan_line_aux ⟨{first.tile}, first.element⟩ rest

/-- The inner merge loop of `match_gems` (board.rs:442-450).  The Rust loop
walks a cursor `i` over the match list (with `current` removed): an entry
disjoint from `current` is left in place and `i` advances; an overlapping
entry is `Vec::remove`d and its tiles are merged into `current`.  Here
`checked` is the prefix the cursor has passed (kept entries, in order) and
the third argument is the rest of the list; the result is the merged
`current` and the surviving list. -/
def inner_merge (cur : Match) (checked : List Match) : List Match → Match × List Match
  | [] => (cur, checked)
  | m :: pending =>
    if m.tiles ∩ cur.tiles = ∅ then
      inner_merge cur (checked ++ [m]) pending
    else
      inner_merge { cur with tiles := cur.tiles ∪ m.tiles } checked pending

/-- Result of the merge phase: `panicked` models the Rust panic raised by
`Vec::insert` when the insertion index exceeds the vector length
(board.rs:452); `fuelOut` is an artefact of the fuel-based embedding of the
outer `while` loop and is unreachable (`outer_merge_ne_fuelOut`). -/
inductive MergeOut where
  | panicked
  | ok (merged : List Match)
  | fuelOut
deriving DecidableEq

/-- The outer merge loop of `match_gems` (board.rs:439-454): while
`index < matches.len()`, remove `matches[index]` as `current`, run the inner
loop over the remainder, then `matches.insert(index, current)` — which
panics when `index > matches.len()` at that point — and advance `index`.
One unit of fuel is spent per iteration; since `index` increases and the
list never grows past its starting length, `ms.length` fuel always suffices
(`outer_merge_ne_fuelOut`). -/
def outer_merge : Nat → List Match → Nat → MergeOut
  | 0, ms, index => if index < ms.length then .fuelOut else .ok ms
  | fuel + 1, ms, index =>
    if h : index < ms.length then
      let cur := ms.get ⟨index, h⟩
      let p := inner_merge cur [] (ms.eraseIdx index)
      if index ≤ p.2.length then
        outer_merge fuel (p.2.insertIdx index p.1) (index + 1)
      else .panicked
    else .ok ms

/-- The merge phase of `match_gems` (board.rs:439-456), with enough fuel for
its worst case. -/
def merge_matches (ms : List Match) : MergeOut := outer_merge ms.length ms 0

/-- The per-column `TileInfo` lists of `match_gems` (board.rs:390-405):
entry `x` of the outer list is column `x` bottom-to-top, tagged with
coordinates. -/
def to_tile_infos (g : List (List Element)) : List (List TileInfo) :=
  g.enum.map fun p => p.2.enum.map fun q => ⟨(p.1, q.1), q.2⟩

/-- Rust `match_gems` (board.rs:380-457) over a column-major grid: build the row
lists and column lists (rows are the transpose of the columns), scan every
row then every column in source order, concatenate the qualifying runs, and
run the merge phase. -/
def match_gems (g : List (List Element)) : MergeOut :=
  merge_matches ((((to_tile_infos g).transpose ++ to_tile_infos g).map scan_line).flatten)

theorem inner_merge_length_le :
    ∀ (pending : List Match) (cur : Match) (checked : List Match),
      ((inner_merge cur checked pending).2).length ≤ checked.length + pending.length := by
  intro pending
  induction pending with
  | nil => intro cur checked; simp [inner_merge]
  | cons m pending ih =>
    intro cur checked
    rw [inner_merge]
    split
    · have := ih cur (checked ++ [m])
      simp [List.length_append] at this ⊢
      omega
    · have := ih { cur with tiles := cur.tiles ∪ m.tiles } checked
      simp at this ⊢
      omega

/-- The fuel chosen by `merge_matches` can never run out: the loop runs at
most once per starting list position. -/
theorem outer_merge_ne_fuelOut :
    ∀ (fuel : Nat) (ms : List Match) (index : Nat),
      ms.length - index ≤ fuel → outer_merge fuel ms index ≠ MergeOut.fuelOut := by
  intro fuel
  induction fuel with
  | zero =>
    intro ms index hle
    rw [outer_merge, if_neg (by omega)]
    intro hcon
    exact MergeOut.noConfusion hcon
  | succ fuel ih =>
    intro ms index hle
    rw [outer_merge]
    by_cases hidx : index < ms.length
    · rw [dif_pos hidx]
      have hinner := inner_merge_length_le (ms.eraseIdx index) (ms.get ⟨index, hidx⟩) []
      have herase : (ms.eraseIdx index).length = ms.length - 1 := by
        rw [List.length_eraseIdx]
        simp [hidx]
      simp only [List.length_nil, Nat.zero_add, herase, List.get_eq_getElem] at hinner
      dsimp only
      split
      · next hins =>
        apply ih
        rw [List.length_insertIdx _ _ hins]
        simp only [List.get_eq_getElem] at hins ⊢
        omega
      · intro hcon
        exact MergeOut.noConfusion hcon
    · rw [dif_neg hidx]
      intro hcon
      exact MergeOut.noConfusion hcon

/-- A column-major 6x5 grid whose only runs are: Fire across row 0 at
columns 0-2, Fire across row 2 at columns 0-2, and Fire up column 0 at rows
0-2.  The two row runs are disjoint; the column run overlaps both. -/
def linkGrid : List (List Element) :=
  [[.fire, .fire, .fire, .life, .death],
   [.fire, .death, .fire, .water, .life],
   [.fire, .water, .fire, .nature, .water],
   [.life, .nature, .death, .life, .nature],
   [.death, .life, .water, .death, .life],
   [.life, .nature, .death, .life, .nature]]

/-- Claim C2: the detection pass on `linkGrid` yields exactly the three runs
described above, in row-scan-then-column-scan order. -/
theorem linkGrid_three_runs :
    ((((to_tile_infos linkGrid).transpose ++ to_tile_infos linkGrid).map
      scan_line).flatten).length = 3 := by
  decide

/-- Claim C2: on `linkGrid` the merge loop of `match_gems` panics (Rust
`Vec::insert` index out of bounds).  After the first outer iteration merges
the row-0 run with the overlapping column run, the second outer iteration
(current = the row-2 run) also absorbs that merged group via the inner loop,
leaving a list of length 0, and then executes `matches.insert(1, current)` —
an out-of-bounds insertion.  The transitive overlap-merge the claim
describes is therefore not achieved; the system crashes instead. -/
theorem c2_match_gems_panics : match_gems linkGrid = MergeOut.panicked := by
  decide

/-- A column-major 6x5 grid whose only runs form an L of five Fire tiles:
row 0 at columns 0-2 and column 0 at rows 0-2, sharing the corner (0, 0). -/
def lShapeGrid : List (List Element) :=
  [[.fire, .fire, .fire, .life, .death],
   [.fire, .death, .water, .water, .life],
   [.fire, .water, .death, .nature, .water],
   [.life, .nature, .death, .life, .nature],
   [.death, .life, .water, .death, .life],
   [.life, .nature, .death, .life, .nature]]

/-- Tile-set sizes of a successful merge result. -/
def merged_cards : MergeOut → Option (List Nat)
  | .ok l => some (l.map fun m => m.tiles.card)
  | _ => none

/-- On the plain L-shape (two overlapping runs only), the merge does succeed
and returns a single match of 5 tiles — the two-match case of the claim
holds; only the linking three-match case crashes. -/
theorem l_shape_single_match : merged_cards (match_gems lShapeGrid) = some [5] := by
  decide

/-- Modelled from the spec: the board state enumeration
`None, Ready, Swapping, Matching, Falling, End` (spec §3).  The board module
revision matching src/battle.rs — which imports `BoardState::{None, Ready,
End}` — is missing from src/; the src/board.rs revision in the tree instead
has a single `Waiting` state playing the roles of both `Ready` and `End`
(it is the target of drop-with-no-swaps at board.rs:331-335 and of
stop-matching-with-no-matches at board.rs:513-519).  `end` is a Lean
keyword, hence `end_`. -/
inductive BoardState where
  | none
  | ready
  | swapping
  | matching
  | falling
  | end_
deriving DecidableEq

/-- The `Swapping` drag-session resource (board.rs:218-223), with the Bevy
`Timer` represented by its accumulated elapsed seconds (the timer is created
as `Timer::from_seconds(9.0, false)`, non-repeating; `finished()` is
`9 ≤ elapsed`). -/
structure Swapping where
  swaps : Nat
  gem : Nat
  currentTile : Nat
  elapsed : ℚ
deriving DecidableEq

/-- Rust `pickup_gem` (board.rs:231-255): on a left-button press over a hovered
tile, insert the drag session: `swaps = 0`, the tile's gem, the tile itself
as `current_tile`, and a fresh 9-second timer; the board state becomes
Swapping. -/
def pickup_gem (tile gem : Nat) : Swapping :=
  { swaps := 0, gem := gem, currentTile := tile, elapsed := 0 }

/-- Rust `update_timer` (board.rs:257-269): the drag timer is ticked by the frame
delta only when at least one swap has occurred (`if swapping.swaps > 0`). -/
def update_timer (s : Swapping) (delta : ℚ) : Swapping :=
  if 0 < s.swaps then { s with elapsed := s.elapsed + delta } else s

/-- Rust `swap_gems` (board.rs:271-317), restricted to the drag-session fields
the claims concern: each update the tile closest to the cursor is computed
(external geometry supplies `closest`); if it differs from `current_tile`,
the two tiles exchange gems, `current_tile` becomes the closest tile and
`swaps` is incremented; otherwise nothing changes. -/
def swap_gems (s : Swapping) (closest : Nat) : Swapping :=
  if closest ≠ s.currentTile then
    { s with currentTile := closest, swaps := s.swaps + 1 }
  else s

/-- Rust `drop_gem` (board.rs:319-338): when the pointer was released this update
or the drag timer has finished, replace the board state with Matching if any
swap occurred and with the ready state otherwise (src/board.rs names that
state `Waiting`; `Ready` is the spec's name for it, see `BoardState`);
otherwise no transition happens. -/
def drop_gem (s : Swapping) (released : Bool) : Option BoardState :=
  if released ∨ 9 ≤ s.elapsed then
    some (if 0 < s.swaps then .matching else .ready)
  else none

/-- Rust `return_gems` (board.rs:340-348): on leaving the Swapping state, the
dragged gem's translation is set to the translation of `current_tile`;
`tile_pos` gives each tile's (fixed) position. -/
def return_gems (tile_pos : Nat → ℚ × ℚ) (s : Swapping) : ℚ × ℚ :=
  tile_pos s.currentTile

/-- One scheduler update affecting the drag session: a timer tick with the
frame delta, or a closest-tile computation feeding `swap_gems`. -/
inductive DragStep where
  | tick (delta : ℚ)
  | moveTo (closest : Nat)

/-- Action of one update on the drag session. -/
def drag_step (s : Swapping) : DragStep → Swapping
  | .tick d => update_timer s d
  | .moveTo c => swap_gems s c

set_option maxRecDepth 4000 in
/-- Claim C5 (counterexample): a drag session in which the pointer stays
stuck over the original tile (every update the closest tile is tile 0, so
`swap_gems` never swaps and `swaps` stays 0) and is never released is NOT
resolved by the 9-second timer: after 100 one-second updates the session is
still undropped, because `update_timer` only ticks the timer when
`swaps > 0`.  A stuck pointer with no swap stalls the turn indefinitely. -/
theorem c5_counterexample :
    ((List.replicate 100 [DragStep.tick 1, DragStep.moveTo 0]).flatten.foldl
        drag_step (pickup_gem 0 7)).swaps = 0 ∧
    drop_gem ((List.replicate 100 [DragStep.tick 1, DragStep.moveTo 0]).flatten.foldl
        drag_step (pickup_gem 0 7)) false
      = Option.none := by
  decide

/-- While `swaps > 0`, every update adds its delta to the timer and the swap
counter is untouched. -/
theorem update_timer_foldl :
    ∀ (deltas : List ℚ) (s : Swapping), 0 < s.swaps →
      (deltas.foldl update_timer s).elapsed = s.elapsed + deltas.sum ∧
      (deltas.foldl update_timer s).swaps = s.swaps := by
  intro deltas
  induction deltas with
  | nil => intro s _; simp
  | cons d ds ih =>
    intro s h
    rw [List.foldl_cons, show update_timer s d = { s with elapsed := s.elapsed + d } by
      simp [update_timer, h]]
    obtain ⟨e1, e2⟩ := ih { s with elapsed := s.elapsed + d } (by simpa using h)
    constructor
    · rw [e1]
      simp [List.sum_cons]
      ring
    · rw [e2]

/-- Claim C5 (amended): once at least one swap has occurred, the drag
session is forcibly resolved no later than when 9 seconds of update time
have accumulated: `drop_gem` then fires even with the pointer never
released, and (since `swaps > 0`) the board goes to Matching.  With zero
swaps the timer never ticks (see `c5_counterexample`), and only a pointer
release resolves the session. -/
theorem c5_forced_drop (s : Swapping) (deltas : List ℚ) (hswaps : 0 < s.swaps)
    (htime : 9 ≤ s.elapsed + deltas.sum) :
    drop_gem (deltas.foldl update_timer s) false = some BoardState.matching := by
  obtain ⟨he, hs⟩ := update_timer_foldl deltas s hswaps
  rw [drop_gem, he, hs, if_pos (Or.inr htime)]
  simp [hswaps]

/-- Claim C5 (witness): a session with one swap, dropped by a 9-second
accumulation. -/
theorem c5_witness :
    0 < (swap_gems (pickup_gem 0 7) 1).swaps ∧
    (9 : ℚ) ≤ (swap_gems (pickup_gem 0 7) 1).elapsed + [(9 : ℚ)].sum ∧
    drop_gem ([(9 : ℚ)].foldl update_timer (swap_gems (pickup_gem 0 7) 1)) false
      = some BoardState.matching :=
  ⟨by decide, by norm_num [swap_gems, pickup_gem],
    c5_forced_drop (swap_gems (pickup_gem 0 7) 1) [(9 : ℚ)] (by decide)
      (by norm_num [swap_gems, pickup_gem])⟩

/-- If a drag session ends with `swaps = 0`, no `swap_gems` update ever
changed `current_tile`: it still is the original tile. -/
theorem drag_foldl_swaps_zero :
    ∀ (steps : List DragStep) (s : Swapping),
      (steps.foldl drag_step s).swaps = 0 →
      (steps.foldl drag_step s).currentTile = s.currentTile ∧ s.swaps = 0 := by
  intro steps
  induction steps with
  | nil => intro s h; exact ⟨rfl, h⟩
  | cons st steps ih =>
    intro s h
    rw [List.foldl_cons] at h ⊢
    obtain ⟨h1, h2⟩ := ih (drag_step s st) h
    cases st with
    | tick d =>
      have hsw : (update_timer s d).swaps = s.swaps := by
        rw [update_timer]
        split <;> rfl
      have hct : (update_timer s d).currentTile = s.currentTile := by
        rw [update_timer]
        split <;> rfl
      have hds : drag_step s (.tick d) = update_timer s d := rfl
      rw [hds] at h1 h2
      rw [hsw] at h2
      exact ⟨h1.trans hct, h2⟩
    | moveTo c =>
      rcases eq_or_ne c s.currentTile with hc | hc
      · have hstep : drag_step s (.moveTo c) = s := by
          simp [drag_step, swap_gems, hc]
        rw [hstep] at h1 h2 ⊢
        exact ⟨h1, h2⟩
      · have hstep : drag_step s (.moveTo c)
            = { s with currentTile := c, swaps := s.swaps + 1 } := by
          simp [drag_step, swap_gems, hc]
        rw [hstep] at h2
        simp at h2

/-- Claim C6: when `drop_gem` resolves a drag session begun by `pickup_gem`
on tile `t`: with `swaps > 0` the board transitions to Matching; with
`swaps = 0` it transitions to the ready state and `return_gems` places the
dragged gem at exactly the original tile `t`'s position (with no swap,
`current_tile` is still `t`). -/
theorem c6_drop_resolution (t g : Nat) (steps : List DragStep) (released : Bool)
    (st : BoardState)
    (hdrop : drop_gem (steps.foldl drag_step (pickup_gem t g)) released = some st) :
    (0 < (steps.foldl drag_step (pickup_gem t g)).swaps → st = BoardState.matching) ∧
    ((steps.foldl drag_step (pickup_gem t g)).swaps = 0 →
      st = BoardState.ready ∧
      ∀ tile_pos : Nat → ℚ × ℚ,
        return_gems tile_pos (steps.foldl drag_step (pickup_gem t g)) = tile_pos t) := by
  rw [drop_gem] at hdrop
  split at hdrop
  · simp only [Option.some_inj] at hdrop
    constructor
    · intro hpos
      rw [← hdrop, if_pos hpos]
    · intro hzero
      obtain ⟨hcur, _⟩ := drag_foldl_swaps_zero steps (pickup_gem t g) hzero
      refine ⟨by rw [← hdrop, if_neg (by omega)], fun tile_pos => ?_⟩
      rw [return_gems, hcur]
      rfl
  · exact Option.noConfusion hdrop

/-- Claim C6 (witness): an immediately released pickup on tile 3 returns to
the ready state with the gem back at tile 3's position. -/
theorem c6_witness :
    drop_gem (([] : List DragStep).foldl drag_step (pickup_gem 3 7)) true
      = some BoardState.ready ∧
    return_gems (fun n => ((n : ℚ), 0)) (([] : List DragStep).foldl drag_step (pickup_gem 3 7))
      = (fun n => ((n : ℚ), 0)) 3 :=
  ⟨by decide,
   ((c6_drop_resolution 3 7 [] true BoardState.ready (by decide)).2 rfl).2 _⟩

/-- The two `Local` variables of `stop_matching` (board.rs:496-497):
`any_matches` and the outstanding-destroy counter `waiting_for`. -/
structure StopMatchingLocals where
  anyMatches : Bool
  waitingFor : Nat
deriving DecidableEq

/-- Rust `stop_matching` (board.rs:495-525), one update.  Inputs: the persistent
locals, the sizes of the `Match` events read this update, and the number of
`DespawnEvent`s with reason `DestroyGem` read this update.  The updated
`any_matches` is `locals.anyMatches || !matchSizes.isEmpty` (board.rs:502-504)
and the updated counter is `locals.waitingFor + matchSizes.sum - despawns`
(board.rs:506-510; the Rust `usize` subtraction panics on underflow,
modelled as `Option.none` — the animation system sends exactly one
`DestroyGem` despawn per counted gem, so the running system never
underflows).  When the counter is zero the state is replaced — Falling if
any match was seen, otherwise the cycle-ending state — and `any_matches` is
reset (board.rs:512-524).  src/board.rs targets `BoardState::Waiting` in the
no-match case; the distinct `End` target is Modelled from the spec (§4.5
`Matching -> End (detector found 0 matches)`) and from src/battle.rs, which
runs `player_attack` on entering `BoardState::End`. -/
def stop_matching (locals : StopMatchingLocals) (matchSizes : List Nat) (despawns : Nat) :
    Option (StopMatchingLocals × Option BoardState) :=
  if despawns ≤ locals.waitingFor + matchSizes.sum then
    if locals.waitingFor + matchSizes.sum - despawns = 0 then
      some (⟨false, 0⟩,
        some (if locals.anyMatches || !matchSizes.isEmpty then .falling else .end_))
    else
      some (⟨locals.anyMatches || !matchSizes.isEmpty,
             locals.waitingFor + matchSizes.sum - despawns⟩, none)
  else none

/-- Claim C4: `stop_matching` advances the Matching phase exactly when the
outstanding destroy counter (after this update's increments and decrements)
reaches zero — in particular immediately, on the first update, when it
starts at zero with no matches; the transition target is Falling when the
detector reported at least one match this pass and the cycle-ending `End`
state when it reported none. -/
theorem c4_stop_matching_advances (locals : StopMatchingLocals) (matchSizes : List Nat)
    (despawns : Nat) (h : despawns ≤ locals.waitingFor + matchSizes.sum) :
    (stop_matching locals matchSizes despawns).isSome ∧
    ∀ res, stop_matching locals matchSizes despawns = some res →
      ((res.2.isSome ↔ locals.waitingFor + matchSizes.sum - despawns = 0) ∧
       ∀ tr, res.2 = some tr →
         tr = if locals.anyMatches || !matchSizes.isEmpty then BoardState.falling
              else BoardState.end_) := by
  rw [stop_matching, if_pos h]
  by_cases hz : locals.waitingFor + matchSizes.sum - despawns = 0
  · rw [if_pos hz]
    refine ⟨rfl, ?_⟩
    intro res hres
    rw [Option.some_inj] at hres
    subst hres
    refine ⟨by simp [hz], ?_⟩
    intro tr htr
    rw [Option.some_inj] at htr
    exact htr.symm
  · rw [if_neg hz]
    refine ⟨rfl, ?_⟩
    intro res hres
    rw [Option.some_inj] at hres
    subst hres
    refine ⟨by simp [hz], ?_⟩
    intro tr htr
    exact Option.noConfusion htr

/-- Claim C4 (witness): on the first update with no matches and a counter at
zero, the phase advances immediately, to `End`. -/
theorem c4_witness :
    (stop_matching ⟨false, 0⟩ [] 0).isSome ∧
    stop_matching ⟨false, 0⟩ [] 0 = some (⟨false, 0⟩, some BoardState.end_) :=
  ⟨(c4_stop_matching_advances ⟨false, 0⟩ [] 0 (by decide)).1, by decide⟩

/-- Modelled from the spec: the `Element` enum of the board-module revision
used by src/battle.rs, which references `Element::Heal`; that revision is
missing from src/ (the `Element` of the src/board.rs in the tree has no Heal
variant).  Spec §3: a gem "owns an `Element` (one of a fixed small enum,
e.g. Fire/Water/Grass/Light/Dark/Heal — 6 variants)". -/
inductive ElementB where
  | fire
  | water
  | grass
  | light
  | dark
  | heal
deriving DecidableEq

/-- A match group as consumed by the battle systems: its element and its
tile count (`Match::element` and `Match::tiles.len()`). -/
structure MatchInfo where
  element : ElementB
  size : Nat
deriving DecidableEq

/-- Rust `u32::saturating_sub` on health values (battle.rs:471, 569): on the
numeric values this is Nat (truncated) subtraction; every health and damage
quantity in the game is far below 2^32. -/
def saturating_sub (a b : Nat) : Nat := a - b

/-- The damage computed by `player_attack` (battle.rs:461-467): the total
tile count over the match groups whose element belongs to the active spell,
times the spell's attack. -/
def player_attack_damage (spellElements : List ElementB) (spellAttack : Nat)
    (ms : List MatchInfo) : Nat :=
  ((ms.filter fun m => spellElements.contains m.element).map fun m => m.size).sum
    * spellAttack

/-- Enemy health after `player_attack` (battle.rs:469-480): when the damage
is nonzero the enemy's health is reduced with `saturating_sub` (the
`damage != 0` guard also skips the hurt animation; for the health value the
skipped subtraction would have been a no-op). -/
def player_attack_enemy_health (spellElements : List ElementB) (spellAttack : Nat)
    (ms : List MatchInfo) (enemyHealth : Nat) : Nat :=
  if player_attack_damage spellElements spellAttack ms ≠ 0 then
    saturating_sub enemyHealth (player_attack_damage spellElements spellAttack ms)
  else enemyHealth

/-- The `heal` sum of `player_attack` (battle.rs:482-486): the total tile
count of the Heal-element match groups — not filtered by the active spell. -/
def player_attack_heal (ms : List MatchInfo) : Nat :=
  ((ms.filter fun m => m.element = ElementB.heal).map fun m => m.size).sum

/-- Player health after the heal step of `player_attack` (battle.rs:488):
`player.current_health = player.max_health.min(player.current_health + heal * 3)`. -/
def player_attack_player_health (ms : List MatchInfo) (maxHealth current : Nat) : Nat :=
  min maxHealth (current + player_attack_heal ms * 3)

/-- Rust `player_attack` (battle.rs:454-489): the enemy's new health paired with
the player's new health, from the active spell (elements and attack), the
match groups collected this turn, and the current health values. -/
def player_attack (spellElements : List ElementB) (spellAttack : Nat)
    (ms : List MatchInfo) (enemyHealth maxHealth current : Nat) : Nat × Nat :=
  (player_attack_enemy_health spellElements spellAttack ms enemyHealth,
   player_attack_player_health ms maxHealth current)

/-- Player health after one enemy's `enemies_attack` step (battle.rs:563-578):
`player.current_health.saturating_sub(enemy.attack)`. -/
def enemies_attack_player_health (current attack : Nat) : Nat :=
  saturating_sub current attack

/-- Claim C8: damage application saturates at zero — as integers the
resulting health equals `max 0 (old - damage)`, hence is never negative —
both for the enemy under `player_attack` and for the player under
`enemies_attack`; and the heal step never raises the player's health above
`max_health`. -/
theorem c8_health_saturation (spellElements : List ElementB) (spellAttack : Nat)
    (ms : List MatchInfo) (enemyHealth maxHealth current attack : Nat) :
    (0 ≤ (player_attack_enemy_health spellElements spellAttack ms enemyHealth : Int) ∧
     (player_attack_enemy_health spellElements spellAttack ms enemyHealth : Int)
       = max 0 ((enemyHealth : Int)
           - (player_attack_damage spellElements spellAttack ms : Int))) ∧
    (0 ≤ (enemies_attack_player_health current attack : Int) ∧
     (enemies_attack_player_health current attack : Int)
       = max 0 ((current : Int) - (attack : Int))) ∧
    player_attack_player_health ms maxHealth current ≤ maxHealth := by
  have hdmg : player_attack_enemy_health spellElements spellAttack ms enemyHealth
      = enemyHealth - player_attack_damage spellElements spellAttack ms := by
    rw [player_attack_enemy_health, saturating_sub]
    split
    · rfl
    · next hd =>
      push_neg at hd
      omega
  refine ⟨⟨by omega, ?_⟩, ⟨?_, ?_⟩, ?_⟩
  · rw [hdmg]
    omega
  · omega
  · rw [enemies_attack_player_health, saturating_sub]
    omega
  · rw [player_attack_player_health]
    exact Nat.min_le_left _ _

/-- The healing amount exactly as claim C10 states it: 3 times the total
number of tiles across all Heal-element match groups. -/
def claimed_heal (ms : List MatchInfo) : Nat :=
  3 * ((ms.filter fun m => m.element = ElementB.heal).map fun m => m.size).sum

/-- Claim C10: the player-health update of `player_attack` adds, before the
`max_health` cap, exactly `claimed_heal ms` — 3 per tile over all
Heal-element match groups — and the result does not depend on the active
spell's elements or attack, nor on the enemy-side damage branch: the healing
applies whether or not Heal is an element of the active spell. -/
theorem c10_player_heal (spellElements spellElements' : List ElementB)
    (spellAttack spellAttack' : Nat) (ms : List MatchInfo)
    (enemyHealth enemyHealth' maxHealth current : Nat) :
    (player_attack spellElements spellAttack ms enemyHealth maxHealth current).2
      = min maxHealth (current + claimed_heal ms) ∧
    (player_attack spellElements spellAttack ms enemyHealth maxHealth current).2
      = (player_attack spellElements' spellAttack' ms enemyHealth' maxHealth current).2 := by
  constructor
  · show player_attack_player_health ms maxHealth current = _
    rw [player_attack_player_health, claimed_heal, player_attack_heal, Nat.mul_comm]
  · rfl

/-- The gravity constant of `move_falling_gems` (board.rs:626):
`let gravity = 30.0`. -/
noncomputable def gravity : ℝ := 30

/-- Fall animation duration (board.rs:625-631):
`Duration::from_secs_f32(f32::sqrt(2.0 * gravity * height) / gravity)`, with
`height` the vertical distance from the gem's start to its destination tile;
real-valued model of the f32 computation. -/
noncomputable def fall_duration (h : ℝ) : ℝ :=
  Real.sqrt (2 * gravity * h) / gravity

/-- Claim C3: for every fall distance `h ≥ 0` the code's duration expression
`sqrt(2 * g * h) / g` equals the constant-gravity free-fall time
`sqrt(2 * h / g)`, with `g = 30`. -/
theorem c3_fall_duration (h : ℝ) (hh : 0 ≤ h) :
    fall_duration h = Real.sqrt (2 * h / gravity) := by
  rw [fall_duration, gravity]
  rw [show 2 * h / (30 : ℝ) = 2 * 30 * h / (30 : ℝ) ^ 2 by ring]
  rw [Real.sqrt_div (by linarith : (0 : ℝ) ≤ 2 * 30 * h) ((30 : ℝ) ^ 2)]
  rw [Real.sqrt_sq (by norm_num : (0 : ℝ) ≤ 30)]

/-- Claim C3 (witness): the identity at `h = 1`. -/
theorem c3_witness : (0 : ℝ) ≤ 1 ∧ fall_duration 1 = Real.sqrt (2 * 1 / gravity) :=
  ⟨by norm_num, c3_fall_duration 1 (by norm_num)⟩
